import Mathlib

/-!
Shallow embedding of the go-timecode library (package `timecode`).

A `Timecode` in the source is a defined type over Go's `int64`; we embed it
as `Int` together with explicit 64-bit wrapping where the Go code performs
machine arithmetic or integer casts.  Strings are Lean `String`s; the
regular-expression matcher used by `Parse` is embedded as an explicit
leftmost backtracking matcher implementing exactly the pattern
`([-])?([01]\d|2[0123]):([012345]\d):([012345]\d)(?:[.,](\d\x7b3\x7d))?`.
-/

namespace timecode

/-- The constant 2^63, the magnitude bound of Go's `int64`. -/
def twoPow63 : Int := 9223372036854775808

/-- The constant 2^64. -/
def twoPow64 : Int := 18446744073709551616

/-- Wrap an unbounded integer into the `int64` range, as Go machine
arithmetic does on overflow (two's complement). -/
def int64Wrap (x : Int) : Int := (x + twoPow63) % twoPow64 - twoPow63

/-- The value of Go's `uint64(x)` conversion applied to an `int64` value,
as a natural number (reinterpretation of the low 64 bits). -/
def uint64Of (x : Int) : Nat := (x % twoPow64).toNat

/-- The set of values representable by Go's `int64`, i.e. the values a
`Timecode` can actually take. -/
abbrev Int64Range (x : Int) : Prop := -twoPow63 ≤ x ∧ x < twoPow63

/-- The source's `Timecode` is a signed 64-bit count of milliseconds; it is
embedded directly as `Int` (with `Int64Range` expressing the int64 bounds),
so every operation below reads `Int` where the source reads `Timecode`. -/
abbrev Timecode := Int

/-- Constant `Zero` from the source. -/
def Zero : Int := 0

/-- Constant `Millisecond` from the source. -/
def Millisecond : Int := 1

/-- Constant `Second` from the source. -/
def Second : Int := Millisecond * 1000

/-- Constant `Minute` from the source. -/
def Minute : Int := Second * 60

/-- Constant `Hour` from the source. -/
def Hour : Int := Minute * 60

/-- `IsNegative` is true if Timecode is below zero. -/
def IsNegative (t : Int) : Bool := decide (t < Zero)

/-- `HourMinuteSecondMilli` returns the constituent elements of a timecode.
Embeds the Go body: `i := uint64(t); if t.IsNegative() { i = uint64(t * -1) }`
followed by successive division/modulo.  `t * -1` is `int64` machine
arithmetic, hence the `int64Wrap`. -/
def HourMinuteSecondMilli (t : Int) : Nat × Nat × Nat × Nat :=
  let i0 : Nat := if IsNegative t then uint64Of (int64Wrap (t * -1)) else uint64Of t
  let milli := i0 % 1000
  let i1 := i0 / 1000
  let second := i1 % 60
  let i2 := i1 / 60
  let minute := i2 % 60
  let i3 := i2 / 60
  let hour := i3
  (hour, minute, second, milli)

/-- The value of Go's `Timecode(n)` conversion applied to a `uint64` value
(reinterpretation of the low 64 bits as a signed 64-bit integer). -/
def int64OfUInt64 (n : Nat) : Int := int64Wrap n

/-- `FromParams` constructs a Timecode from its constituent parts.  Each Go
cast and arithmetic operation is on `int64`, hence wrapped. -/
def FromParams (negative : Bool) (hour minute second milli : Nat) : Int :=
  let t1 := int64Wrap (int64OfUInt64 milli * Millisecond)
  let t2 := int64Wrap (t1 + int64Wrap (int64OfUInt64 second * Second))
  let t3 := int64Wrap (t2 + int64Wrap (int64OfUInt64 minute * Minute))
  let t4 := int64Wrap (t3 + int64Wrap (int64OfUInt64 hour * Hour))
  if negative then int64Wrap (t4 * -1) else t4

/-- `WithHours` returns a new Timecode with the hours set as given. -/
def WithHours (t : Int) (hour : Nat) : Int :=
  let p := HourMinuteSecondMilli t
  FromParams (IsNegative t) hour p.2.1 p.2.2.1 p.2.2.2

/-- `WithMinutes` returns a new Timecode with the minutes set as given. -/
def WithMinutes (t : Int) (minutes : Nat) : Int :=
  let p := HourMinuteSecondMilli t
  FromParams (IsNegative t) p.1 minutes p.2.2.1 p.2.2.2

/-- `WithSeconds` returns a new Timecode with the seconds set as given. -/
def WithSeconds (t : Int) (seconds : Nat) : Int :=
  let p := HourMinuteSecondMilli t
  FromParams (IsNegative t) p.1 p.2.1 seconds p.2.2.2

/-- `WithMilli` returns a new Timecode with the milliseconds set as given. -/
def WithMilli (t : Int) (milli : Nat) : Int :=
  let p := HourMinuteSecondMilli t
  FromParams (IsNegative t) p.1 p.2.1 p.2.2.1 milli

/-- Embedding of Go's `fmt.Sprintf` zero-padding of a rendered number to a
minimum width (`%02d`, `%03d`): prepend '0' characters when the decimal
rendering is shorter than the width, otherwise leave it untouched. -/
def zeroPad (width : Nat) (s : String) : String :=
  if s.length < width then String.mk (List.replicate (width - s.length) '0') ++ s else s

/-- Render a natural number in decimal, zero-padded to `width` (Go `%0*d`). -/
def fmtNum (width n : Nat) : String := zeroPad width (Nat.repr n)

/-- `Format` formats a Timecode into a string.  If `withMilli` is true then
`milliSeperator` is used to separate the seconds section from the
milliseconds section. -/
def Format (t : Int) (withMilli : Bool) (milliSeperator : String) : String :=
  let negative := IsNegative t
  let p := HourMinuteSecondMilli t
  let result :=
    if withMilli then
      fmtNum 2 p.1 ++ (":") ++ fmtNum 2 p.2.1 ++ (":") ++ fmtNum 2 p.2.2.1 ++
        milliSeperator ++ fmtNum 3 p.2.2.2
    else
      fmtNum 2 p.1 ++ (":") ++ fmtNum 2 p.2.1 ++ (":") ++ fmtNum 2 p.2.2.1
  if negative then ("-") ++ result else result

/-- `FormatDot` will format as e.g. 01:02:03.004. -/
def FormatDot (t : Int) : String := Format t true (".")

/-- `FormatComma` will format as e.g. 01:02:03,004. -/
def FormatComma (t : Int) : String := Format t true (",")

/-- The `String()` method of the source: the same as `FormatDot`. -/
def TimecodeString (t : Int) : String := FormatDot t

/-- The ten characters matched by the regex class `\d`. -/
def digitChars : List Char := ['0', '1', '2', '3', '4', '5', '6', '7', '8', '9']

/-- The six characters matched by the regex class `[012345]`. -/
def lowDigitChars : List Char := ['0', '1', '2', '3', '4', '5']

/-- Numeric value of a digit character (how `strconv.ParseUint` reads it). -/
def digitVal (c : Char) : Nat := c.toNat - Char.toNat '0'

/-- Match the unsigned body of the timecode regex,
`([01]\d|2[0123]):([012345]\d):([012345]\d)(?:[.,](\d\x7b3\x7d))?`, at the
start of the character list.  Returns the captured
(hour, minute, second, milli), where an absent millisecond group yields 0
exactly as the source's `parseNumber` turns the empty capture into 0. -/
def matchBody (cs : List Char) : Option (Nat × Nat × Nat × Nat) :=
  match cs with
  | h1 :: h2 :: c1 :: m1 :: m2 :: c2 :: s1 :: s2 :: rest =>
    if c1 = ':' ∧ c2 = ':' ∧
        (((h1 = '0' ∨ h1 = '1') ∧ h2 ∈ digitChars) ∨
          (h1 = '2' ∧ (h2 = '0' ∨ h2 = '1' ∨ h2 = '2' ∨ h2 = '3'))) ∧
        (m1 ∈ lowDigitChars ∧ m2 ∈ digitChars) ∧
        (s1 ∈ lowDigitChars ∧ s2 ∈ digitChars) then
      let hour := 10 * digitVal h1 + digitVal h2
      let minute := 10 * digitVal m1 + digitVal m2
      let second := 10 * digitVal s1 + digitVal s2
      match rest with
      | sep :: d1 :: d2 :: d3 :: _ =>
        if (sep = '.' ∨ sep = ',') ∧ d1 ∈ digitChars ∧ d2 ∈ digitChars ∧ d3 ∈ digitChars then
          some (hour, minute, second, 100 * digitVal d1 + 10 * digitVal d2 + digitVal d3)
        else
          some (hour, minute, second, 0)
      | _ => some (hour, minute, second, 0)
    else none
  | _ => none

/-- Try to match the full regex (with its optional leading `([-])?` group)
at the start of the character list, with the backtracking preference order
of Go's regexp engine: the greedy optional sign group is tried first. -/
def matchAt (cs : List Char) : Option (Bool × Nat × Nat × Nat × Nat) :=
  match cs with
  | c :: rest =>
    if c = '-' then
      match matchBody rest with
      | some r => some (true, r)
      | none => Option.map (fun r => (false, r)) (matchBody (c :: rest))
    else Option.map (fun r => (false, r)) (matchBody (c :: rest))
  | [] => Option.map (fun r => (false, r)) (matchBody [])

/-- Leftmost search: the captures of the regex match starting at the
earliest position of the list where a match starts, as
`Regexp.FindStringSubmatch` returns. -/
def findMatch (cs : List Char) : Option (Bool × Nat × Nat × Nat × Nat) :=
  match cs with
  | [] => matchAt []
  | c :: rest =>
    match matchAt (c :: rest) with
    | some r => some r
    | none => findMatch rest

/-- `Parse` extracts a Timecode from a string.  Returns the value together
with `none` on success, or the zero value together with the error message
on failure, mirroring the Go `(Timecode, error)` pair. -/
def Parse (str : String) : Int × Option String :=
  match findMatch str.data with
  | some (neg, h, m, s, ms) => (FromParams neg h m s ms, none)
  | none => (Zero, some (("[") ++ str ++ ("] is not a timecode")))

example : Parse ("00:00:01") = (1000, none) := by decide
example : Parse ("01:02:03.456") = (3723456, none) := by decide
example : Parse ("-01:02:03.456") = (-3723456, none) := by decide
example : Parse ("00:00:01.zzz") = (1000, none) := by decide
example : Parse ("crouching.tiger.00:00:01.hidden.timecode") = (1000, none) := by decide
example : Parse ("00:00:01.1234") = (1123, none) := by decide
example : (Parse ("00:00:-00")).2.isSome = true := by decide
example : FormatDot (3723456) = ("01:02:03.456") := by decide
example : FormatDot (-3723456) = ("-01:02:03.456") := by decide
example : FormatDot (FromParams false 1 2 3 4) = ("01:02:03.004") := by decide
example : FormatDot (FromParams true 1 2 3 4) = ("-01:02:03.004") := by decide
example : FormatDot (FromParams false 100 0 0 0) = ("100:00:00.000") := by decide
example : Format (3723456) false ("x") = ("01:02:03") := by decide

/-- Wrapping is the identity on values already in the int64 range. -/
theorem int64Wrap_id (x : Int) (h1 : -twoPow63 ≤ x) (h2 : x < twoPow63) :
    int64Wrap x = x := by
  simp only [int64Wrap, twoPow63, twoPow64] at *
  omega

/-- Wrapping is the identity on values in the int64 range, stated with
numeral bounds so that `omega` side goals close directly. -/
theorem int64Wrap_eq (x : Int) (h1 : -9223372036854775808 ≤ x)
    (h2 : x < 9223372036854775808) : int64Wrap x = x :=
  int64Wrap_id x h1 h2

/-- The magnitude computed at the top of `HourMinuteSecondMilli` is the
absolute value of the input, for every int64 value including the minimum
(where the Go negation `t * -1` overflows but the `uint64` cast of the
result still reads back 2^63). -/
theorem magnitude_eq (t : Int) (ht : Int64Range t) :
    (if IsNegative t then uint64Of (int64Wrap (t * -1)) else uint64Of t) = t.natAbs := by
  obtain ⟨hlo, hhi⟩ := ht
  by_cases hneg : t < 0
  · have hif : IsNegative t = true := by simp [IsNegative, Zero, hneg]
    rw [hif, if_pos rfl]
    by_cases hmin : t = -twoPow63
    · subst hmin
      simp only [twoPow63, uint64Of, int64Wrap, twoPow64]
      decide
    · have h1 : int64Wrap (t * -1) = t * -1 := by
        refine int64Wrap_id _ ?_ ?_ <;> simp only [twoPow63] at * <;> omega
      rw [h1]
      simp only [uint64Of, twoPow64, twoPow63] at *
      omega
  · have hif : IsNegative t = false := by simp [IsNegative, Zero, hneg]
    rw [hif]
    simp only [Bool.false_eq_true, if_false, uint64Of, twoPow64, twoPow63] at *
    omega

/-- `HourMinuteSecondMilli` computes the successive division/modulo
decomposition of the absolute magnitude of its argument. -/
theorem hmsm_eq (t : Int) (ht : Int64Range t) :
    HourMinuteSecondMilli t =
      (t.natAbs / 3600000, t.natAbs / 60000 % 60, t.natAbs / 1000 % 60, t.natAbs % 1000) := by
  simp only [HourMinuteSecondMilli]
  rw [magnitude_eq t ht]
  have e1 : t.natAbs / 1000 / 60 / 60 = t.natAbs / 3600000 := by omega
  have e2 : t.natAbs / 1000 / 60 % 60 = t.natAbs / 60000 % 60 := by omega
  rw [e1, e2]

/-- In the absence of 64-bit overflow, `FromParams` is plain signed
arithmetic on the components. -/
theorem FromParams_eq (neg : Bool) (h m s ms : Nat)
    (hbound : 3600000 * h + 60000 * m + 1000 * s + ms < 9223372036854775808) :
    FromParams neg h m s ms =
      (if neg then -1 else 1) *
        (3600000 * (h : Int) + 60000 * (m : Int) + 1000 * (s : Int) + (ms : Int)) := by
  have eMs : Millisecond = (1 : Int) := rfl
  have eS : Second = (1000 : Int) := by decide
  have eM : Minute = (60000 : Int) := by decide
  have eH : Hour = (3600000 : Int) := by decide
  have hT1 : int64Wrap (int64Wrap (ms : Int) * Millisecond) = (ms : Int) := by
    rw [eMs, mul_one, int64Wrap_eq ((ms : Int)) (by omega) (by omega),
      int64Wrap_eq ((ms : Int)) (by omega) (by omega)]
  have hT2 : int64Wrap (int64Wrap (s : Int) * Second) = (s : Int) * 1000 := by
    rw [eS, int64Wrap_eq ((s : Int)) (by omega) (by omega),
      int64Wrap_eq ((s : Int) * 1000) (by omega) (by omega)]
  have hT3 : int64Wrap (int64Wrap (m : Int) * Minute) = (m : Int) * 60000 := by
    rw [eM, int64Wrap_eq ((m : Int)) (by omega) (by omega),
      int64Wrap_eq ((m : Int) * 60000) (by omega) (by omega)]
  have hT4 : int64Wrap (int64Wrap (h : Int) * Hour) = (h : Int) * 3600000 := by
    rw [eH, int64Wrap_eq ((h : Int)) (by omega) (by omega),
      int64Wrap_eq ((h : Int) * 3600000) (by omega) (by omega)]
  simp only [FromParams, int64OfUInt64]
  rw [hT1, hT2, hT3, hT4]
  rw [int64Wrap_eq ((ms : Int) + (s : Int) * 1000) (by omega) (by omega)]
  rw [int64Wrap_eq ((ms : Int) + (s : Int) * 1000 + (m : Int) * 60000) (by omega) (by omega)]
  rw [int64Wrap_eq ((ms : Int) + (s : Int) * 1000 + (m : Int) * 60000 + (h : Int) * 3600000)
    (by omega) (by omega)]
  rw [int64Wrap_eq
    (((ms : Int) + (s : Int) * 1000 + (m : Int) * 60000 + (h : Int) * 3600000) * -1)
    (by omega) (by omega)]
  split <;> omega

/-- C2: for every sign flag and components hour in [0,10000], minute in
[0,59], second in [0,59], milli in [0,999], decomposing the composed value
returns exactly the original components, and the sign query of the composed
value equals the sign flag except that it is false when the composed value
is zero. -/
theorem C2_compose_decompose (neg : Bool) (h m s ms : Nat)
    (hh : h ≤ 10000) (hm : m ≤ 59) (hs : s ≤ 59) (hms : ms ≤ 999) :
    HourMinuteSecondMilli (FromParams neg h m s ms) = (h, m, s, ms) ∧
    IsNegative (FromParams neg h m s ms) =
      (neg && decide (FromParams neg h m s ms ≠ 0)) := by
  have hb : 3600000 * h + 60000 * m + 1000 * s + ms < 9223372036854775808 := by omega
  have he := FromParams_eq neg h m s ms hb
  have hrange : Int64Range (FromParams neg h m s ms) := by
    rw [he]; simp only [Int64Range, twoPow63]; split <;> omega
  refine ⟨?_, ?_⟩
  · rw [hmsm_eq _ hrange, he]
    simp only [Prod.mk.injEq]
    split <;> omega
  · rw [he]
    simp only [IsNegative, Zero]
    split
    next hn =>
      subst hn
      simp only [Bool.true_and, decide_eq_decide]
      omega
    next hn =>
      simp only [Bool.not_eq_true] at hn
      subst hn
      simp only [Bool.false_and, decide_eq_false_iff_not]
      omega

/-- C2 witness: a concrete instance at the edge of the stated ranges. -/
theorem C2_compose_decompose_witness :
    HourMinuteSecondMilli (FromParams true 10000 59 59 999) = (10000, 59, 59, 999) ∧
    IsNegative (FromParams true 10000 59 59 999) =
      (true && decide (FromParams true 10000 59 59 999 ≠ 0)) :=
  C2_compose_decompose true 10000 59 59 999 (by decide) (by decide) (by decide) (by decide)

/-- C6: for every int64 Timecode t (including every negative value, down to
the minimum), `HourMinuteSecondMilli` is total and returns the successive
division/modulo decomposition of the absolute magnitude of t: hours =
|t| / 3600000 (unbounded), minutes = |t| / 60000 mod 60, seconds =
|t| / 1000 mod 60, milliseconds = |t| mod 1000; all four results are
non-negative by virtue of living in Nat. -/
theorem C6_decompose_magnitude (t : Int) (ht : Int64Range t) :
    HourMinuteSecondMilli t =
      (t.natAbs / 3600000, t.natAbs / 60000 % 60, t.natAbs / 1000 % 60, t.natAbs % 1000) :=
  hmsm_eq t ht

/-- C6 witness: the decomposition at the minimum int64 value, where Go's
`t * -1` overflows yet the magnitude still comes out as 2^63. -/
theorem C6_decompose_magnitude_witness :
    HourMinuteSecondMilli (-9223372036854775808) =
      ((-9223372036854775808 : Int).natAbs / 3600000,
        (-9223372036854775808 : Int).natAbs / 60000 % 60,
        (-9223372036854775808 : Int).natAbs / 1000 % 60,
        (-9223372036854775808 : Int).natAbs % 1000) :=
  C6_decompose_magnitude (-9223372036854775808) (by decide)

/-- C7: each With-operation equals `FromParams` applied to the sign query
and the decomposed components of the receiver with exactly one component
replaced by the supplied value — the other three components and the sign
are passed through unchanged — and the supplied value is not
range-validated: an out-of-range minutes value (70) yields a Timecode whose
later decomposition shows the overflow rolled into the next-higher unit. -/
theorem C7_with_setters :
    (∀ t : Int, ∀ v : Nat,
      WithHours t v =
        FromParams (IsNegative t) v (HourMinuteSecondMilli t).2.1
          (HourMinuteSecondMilli t).2.2.1 (HourMinuteSecondMilli t).2.2.2 ∧
      WithMinutes t v =
        FromParams (IsNegative t) (HourMinuteSecondMilli t).1 v
          (HourMinuteSecondMilli t).2.2.1 (HourMinuteSecondMilli t).2.2.2 ∧
      WithSeconds t v =
        FromParams (IsNegative t) (HourMinuteSecondMilli t).1
          (HourMinuteSecondMilli t).2.1 v (HourMinuteSecondMilli t).2.2.2 ∧
      WithMilli t v =
        FromParams (IsNegative t) (HourMinuteSecondMilli t).1
          (HourMinuteSecondMilli t).2.1 (HourMinuteSecondMilli t).2.2.1 v) ∧
    HourMinuteSecondMilli (WithMinutes (FromParams false 1 2 3 4) 70) = (2, 10, 3, 4) :=
  ⟨fun _ _ => ⟨rfl, rfl, rfl, rfl⟩, by decide⟩

/-- C7 witness: the setter equation instantiated at a concrete negative
receiver and replacement value. -/
theorem C7_with_setters_witness :
    WithHours (-3723456) 7 =
      FromParams (IsNegative (-3723456)) 7 (HourMinuteSecondMilli (-3723456)).2.1
        (HourMinuteSecondMilli (-3723456)).2.2.1 (HourMinuteSecondMilli (-3723456)).2.2.2 :=
  (C7_with_setters.1 (-3723456) 7).1

/-- A digit character read back as a number gives the digit. -/
theorem digitVal_digitChar : ∀ d : Nat, d < 10 → digitVal (Nat.digitChar d) = d := by decide

/-- Digit characters are in the `\d` class. -/
theorem digitChar_mem_digitChars : ∀ d : Nat, d < 10 → Nat.digitChar d ∈ digitChars := by
  decide

/-- Digits below six are in the `[012345]` class. -/
theorem digitChar_mem_lowDigitChars : ∀ d : Nat, d < 6 → Nat.digitChar d ∈ lowDigitChars := by
  decide

/-- A digit character is never the minus sign. -/
theorem digitChar_ne_minus : ∀ d : Nat, d < 10 → ¬ Nat.digitChar d = '-' := by decide

/-- The two zero-padded digits of a number below 60 (or below 24). -/
theorem fmtNum2_data : ∀ n : Nat, n < 60 →
    (fmtNum 2 n).data = [Nat.digitChar (n / 10), Nat.digitChar (n % 10)] := by decide

set_option maxRecDepth 10000 in
/-- The three zero-padded digits of a number below 1000. -/
theorem fmtNum3_data : ∀ n : Nat, n < 1000 →
    (fmtNum 3 n).data =
      [Nat.digitChar (n / 100), Nat.digitChar (n / 10 % 10), Nat.digitChar (n % 10)] := by
  decide

/-- The matcher body accepts the digit rendering of in-range components,
with either separator, and captures exactly those components. -/
theorem matchBody_digits (h m s ms : Nat) (hh : h ≤ 23) (hm : m ≤ 59) (hs : s ≤ 59)
    (hms : ms ≤ 999) (sep : Char) (hsep : sep = '.' ∨ sep = ',') (tail : List Char) :
    matchBody (Nat.digitChar (h / 10) :: Nat.digitChar (h % 10) :: ':' ::
        Nat.digitChar (m / 10) :: Nat.digitChar (m % 10) :: ':' ::
        Nat.digitChar (s / 10) :: Nat.digitChar (s % 10) :: sep ::
        Nat.digitChar (ms / 100) :: Nat.digitChar (ms / 10 % 10) ::
        Nat.digitChar (ms % 10) :: tail) = some (h, m, s, ms) := by
  simp only [matchBody]
  split
  · split
    · rw [digitVal_digitChar (h / 10) (by omega), digitVal_digitChar (h % 10) (by omega),
        digitVal_digitChar (m / 10) (by omega), digitVal_digitChar (m % 10) (by omega),
        digitVal_digitChar (s / 10) (by omega), digitVal_digitChar (s % 10) (by omega),
        digitVal_digitChar (ms / 100) (by omega), digitVal_digitChar (ms / 10 % 10) (by omega),
        digitVal_digitChar (ms % 10) (by omega)]
      simp only [Option.some.injEq, Prod.mk.injEq]
      refine ⟨?_, ?_, ?_, ?_⟩ <;> omega
    · next hc2 =>
      exfalso
      apply hc2
      exact ⟨hsep, digitChar_mem_digitChars _ (by omega),
        digitChar_mem_digitChars _ (by omega), digitChar_mem_digitChars _ (by omega)⟩
  · next hc =>
    exfalso
    apply hc
    refine ⟨trivial, trivial, ?_, ⟨?_, ?_⟩, ⟨?_, ?_⟩⟩
    · have h1 : h / 10 = 0 ∨ h / 10 = 1 ∨ h / 10 = 2 := by omega
      rcases h1 with h1 | h1 | h1
      · exact Or.inl ⟨Or.inl (by rw [h1]; decide), digitChar_mem_digitChars _ (by omega)⟩
      · exact Or.inl ⟨Or.inr (by rw [h1]; decide), digitChar_mem_digitChars _ (by omega)⟩
      · refine Or.inr ⟨by rw [h1]; decide, ?_⟩
        have h2 : h % 10 = 0 ∨ h % 10 = 1 ∨ h % 10 = 2 ∨ h % 10 = 3 := by omega
        rcases h2 with h2 | h2 | h2 | h2
        · exact Or.inl (by rw [h2]; decide)
        · exact Or.inr (Or.inl (by rw [h2]; decide))
        · exact Or.inr (Or.inr (Or.inl (by rw [h2]; decide)))
        · exact Or.inr (Or.inr (Or.inr (by rw [h2]; decide)))
    · exact digitChar_mem_lowDigitChars _ (by omega)
    · exact digitChar_mem_digitChars _ (by omega)
    · exact digitChar_mem_lowDigitChars _ (by omega)
    · exact digitChar_mem_digitChars _ (by omega)

/-- Character data of the colon literal. -/
theorem colon_data : (":").data = [':'] := rfl

/-- Character data of the dot literal. -/
theorem dot_data : (".").data = ['.'] := rfl

/-- Character data of the minus literal. -/
theorem minus_data : ("-").data = ['-'] := rfl

/-- The full pattern accepts the rendering of in-range components with no
sign, capturing the components with a false sign flag; any trailing
characters are ignored. -/
theorem matchAt_digits_pos (h m s ms : Nat) (hh : h ≤ 23) (hm : m ≤ 59) (hs : s ≤ 59)
    (hms : ms ≤ 999) (tail : List Char) :
    matchAt (Nat.digitChar (h / 10) :: Nat.digitChar (h % 10) :: ':' ::
        Nat.digitChar (m / 10) :: Nat.digitChar (m % 10) :: ':' ::
        Nat.digitChar (s / 10) :: Nat.digitChar (s % 10) :: '.' ::
        Nat.digitChar (ms / 100) :: Nat.digitChar (ms / 10 % 10) ::
        Nat.digitChar (ms % 10) :: tail) = some (false, h, m, s, ms) := by
  simp only [matchAt]
  rw [if_neg (digitChar_ne_minus _ (by omega))]
  rw [matchBody_digits h m s ms hh hm hs hms '.' (Or.inl rfl) tail]
  rfl

/-- The full pattern accepts the rendering of in-range components behind a
minus sign, capturing the components with a true sign flag. -/
theorem matchAt_digits_neg (h m s ms : Nat) (hh : h ≤ 23) (hm : m ≤ 59) (hs : s ≤ 59)
    (hms : ms ≤ 999) :
    matchAt ('-' :: Nat.digitChar (h / 10) :: Nat.digitChar (h % 10) :: ':' ::
        Nat.digitChar (m / 10) :: Nat.digitChar (m % 10) :: ':' ::
        Nat.digitChar (s / 10) :: Nat.digitChar (s % 10) :: '.' ::
        Nat.digitChar (ms / 100) :: Nat.digitChar (ms / 10 % 10) ::
        Nat.digitChar (ms % 10) :: []) = some (true, h, m, s, ms) := by
  simp only [matchAt, if_true]
  rw [matchBody_digits h m s ms hh hm hs hms '.' (Or.inl rfl) []]

/-- Leftmost search returns the match found at the head position. -/
theorem findMatch_cons_some (c : Char) (rest : List Char) (r : Bool × Nat × Nat × Nat × Nat)
    (hr : matchAt (c :: rest) = some r) : findMatch (c :: rest) = some r := by
  simp only [findMatch, hr]

/-- The character data of `FormatDot` for values whose hour field fits in
two digits: an optional minus sign followed by the twelve characters
HH:MM:SS.mmm built from the decimal digits of the decomposition. -/
theorem FormatDot_data (t : Int) (ht : Int64Range t) (hhour : t.natAbs / 3600000 ≤ 23) :
    (FormatDot t).data =
      (if IsNegative t then ['-'] else []) ++
        (Nat.digitChar (t.natAbs / 3600000 / 10) :: Nat.digitChar (t.natAbs / 3600000 % 10) ::
          ':' ::
          Nat.digitChar (t.natAbs / 60000 % 60 / 10) ::
          Nat.digitChar (t.natAbs / 60000 % 60 % 10) :: ':' ::
          Nat.digitChar (t.natAbs / 1000 % 60 / 10) ::
          Nat.digitChar (t.natAbs / 1000 % 60 % 10) :: '.' ::
          Nat.digitChar (t.natAbs % 1000 / 100) :: Nat.digitChar (t.natAbs % 1000 / 10 % 10) ::
          Nat.digitChar (t.natAbs % 1000 % 10) :: []) := by
  simp only [FormatDot, Format, eq_self_iff_true, if_true]
  rw [hmsm_eq t ht]
  dsimp only
  cases hneg : IsNegative t
  · simp only [Bool.false_eq_true, if_false, List.nil_append]
    simp only [String.data_append, colon_data, dot_data]
    rw [fmtNum2_data _ (by omega), fmtNum2_data _ (by omega), fmtNum2_data _ (by omega),
      fmtNum3_data _ (by omega)]
    simp only [List.cons_append, List.nil_append]
  · simp only [eq_self_iff_true, if_true]
    simp only [String.data_append, colon_data, dot_data, minus_data]
    rw [fmtNum2_data _ (by omega), fmtNum2_data _ (by omega), fmtNum2_data _ (by omega),
      fmtNum3_data _ (by omega)]
    simp only [List.cons_append, List.nil_append]

/-- C1: for every int64 Timecode t whose hour component (as returned by
`HourMinuteSecondMilli` on its absolute value) is in [0,23], parsing the
dot-formatted rendering returns exactly t with no error. -/
theorem C1_parse_format_roundtrip (t : Int) (ht : Int64Range t)
    (hhour : (HourMinuteSecondMilli t).1 ≤ 23) :
    Parse (FormatDot t) = (t, none) := by
  rw [hmsm_eq t ht] at hhour
  dsimp only at hhour
  have hdata := FormatDot_data t ht hhour
  have hA : t.natAbs / 60000 % 60 ≤ 59 := by omega
  have hB : t.natAbs / 1000 % 60 ≤ 59 := by omega
  have hC : t.natAbs % 1000 ≤ 999 := by omega
  cases hneg : IsNegative t
  · rw [hneg] at hdata
    simp only [Bool.false_eq_true, if_false, List.nil_append] at hdata
    have hfm := findMatch_cons_some _ _ _
      (matchAt_digits_pos (t.natAbs / 3600000) (t.natAbs / 60000 % 60)
        (t.natAbs / 1000 % 60) (t.natAbs % 1000) hhour hA hB hC [])
    rw [← hdata] at hfm
    simp only [Parse, hfm]
    simp only [Prod.mk.injEq]
    refine ⟨?_, trivial⟩
    rw [FromParams_eq false _ _ _ _ (by omega)]
    simp only [IsNegative, Zero, decide_eq_false_iff_not] at hneg
    simp only [Bool.false_eq_true, if_false]
    omega
  · rw [hneg] at hdata
    simp only [eq_self_iff_true, if_true, List.singleton_append] at hdata
    have hfm := findMatch_cons_some _ _ _
      (matchAt_digits_neg (t.natAbs / 3600000) (t.natAbs / 60000 % 60)
        (t.natAbs / 1000 % 60) (t.natAbs % 1000) hhour hA hB hC)
    rw [← hdata] at hfm
    simp only [Parse, hfm]
    simp only [Prod.mk.injEq]
    refine ⟨?_, trivial⟩
    rw [FromParams_eq true _ _ _ _ (by omega)]
    simp only [IsNegative, Zero, decide_eq_true_eq] at hneg
    simp only [eq_self_iff_true, if_true]
    omega

/-- C1 witness: the round trip at a concrete negative value. -/
theorem C1_parse_format_roundtrip_witness : Parse (FormatDot (-3723456)) = (-3723456, none) :=
  C1_parse_format_roundtrip (-3723456) (by decide) (by decide)

/-- Members of the `\d` class denote digits at most nine. -/
theorem digitVal_le_of_mem (c : Char) (hc : c ∈ digitChars) : digitVal c ≤ 9 := by
  fin_cases hc <;> decide

/-- Members of the `[012345]` class denote digits at most five. -/
theorem digitVal_le_of_mem_low (c : Char) (hc : c ∈ lowDigitChars) : digitVal c ≤ 5 := by
  fin_cases hc <;> decide

/-- The hour tens digit of the `[01]` alternative denotes at most one. -/
theorem digitVal_le_one (c : Char) (hc : c = '0' ∨ c = '1') : digitVal c ≤ 1 := by
  rcases hc with rfl | rfl <;> decide

/-- The hour units digit of the `2[0123]` alternative denotes at most
three. -/
theorem digitVal_le_three (c : Char) (hc : c = '0' ∨ c = '1' ∨ c = '2' ∨ c = '3') :
    digitVal c ≤ 3 := by
  rcases hc with rfl | rfl | rfl | rfl <;> decide

/-- Whatever the matcher body captures respects the grammar's field
bounds: hour at most 23, minute and second at most 59, milli at most
999. -/
theorem matchBody_bounds (cs : List Char) (h m s ms : Nat)
    (hmb : matchBody cs = some (h, m, s, ms)) :
    h ≤ 23 ∧ m ≤ 59 ∧ s ≤ 59 ∧ ms ≤ 999 := by
  unfold matchBody at hmb
  split at hmb
  next h1 h2 c1 m1 m2 c2 s1 s2 rest =>
    split at hmb
    next hcond =>
      obtain ⟨-, -, hhour, ⟨hm1, hm2⟩, ⟨hs1, hs2⟩⟩ := hcond
      have hdm1 : digitVal m1 ≤ 5 := digitVal_le_of_mem_low m1 hm1
      have hdm2 : digitVal m2 ≤ 9 := digitVal_le_of_mem m2 hm2
      have hds1 : digitVal s1 ≤ 5 := digitVal_le_of_mem_low s1 hs1
      have hds2 : digitVal s2 ≤ 9 := digitVal_le_of_mem s2 hs2
      have hdh : 10 * digitVal h1 + digitVal h2 ≤ 23 := by
        rcases hhour with ⟨h01, hmem⟩ | ⟨h2eq, h23⟩
        · have e1 := digitVal_le_one h1 h01
          have e2 := digitVal_le_of_mem h2 hmem
          omega
        · have e1 : digitVal h1 = 2 := by subst h2eq; decide
          have e2 := digitVal_le_three h2 h23
          omega
      split at hmb
      next sep d1 d2 d3 tl =>
        split at hmb
        next hc2 =>
          obtain ⟨-, hd1, hd2, hd3⟩ := hc2
          have b1 := digitVal_le_of_mem d1 hd1
          have b2 := digitVal_le_of_mem d2 hd2
          have b3 := digitVal_le_of_mem d3 hd3
          simp only [Option.some.injEq, Prod.mk.injEq] at hmb
          omega
        next =>
          simp only [Option.some.injEq, Prod.mk.injEq] at hmb
          omega
      all_goals
        simp only [Option.some.injEq, Prod.mk.injEq] at hmb
        omega
    next => exact absurd hmb (by simp)
  all_goals exact absurd hmb (by simp)

/-- Bounds for the sign-discarding map used at sign-less match positions. -/
theorem matchBody_map_bounds (cs : List Char) (neg : Bool) (h m s ms : Nat)
    (hma : Option.map (fun r => (false, r)) (matchBody cs) = some (neg, h, m, s, ms)) :
    h ≤ 23 ∧ m ≤ 59 ∧ s ≤ 59 ∧ ms ≤ 999 := by
  cases hmb : matchBody cs with
  | none => rw [hmb] at hma; exact absurd hma (by simp)
  | some r =>
    rw [hmb] at hma
    simp only [Option.map_some', Option.some.injEq, Prod.mk.injEq] at hma
    obtain ⟨-, hr⟩ := hma
    obtain ⟨r1, r2, r3, r4⟩ := r
    simp only [Prod.mk.injEq] at hr
    obtain ⟨e1, e2, e3, e4⟩ := hr
    subst e1; subst e2; subst e3; subst e4
    exact matchBody_bounds cs r1 r2 r3 r4 hmb

/-- Whatever the full pattern captures at one position respects the
grammar's field bounds. -/
theorem matchAt_bounds (cs : List Char) (neg : Bool) (h m s ms : Nat)
    (hma : matchAt cs = some (neg, h, m, s, ms)) :
    h ≤ 23 ∧ m ≤ 59 ∧ s ≤ 59 ∧ ms ≤ 999 := by
  unfold matchAt at hma
  split at hma
  next c rest =>
    split at hma
    · split at hma
      next r heq =>
        simp only [Option.some.injEq, Prod.mk.injEq] at hma
        obtain ⟨-, hr⟩ := hma
        obtain ⟨r1, r2, r3, r4⟩ := r
        simp only [Prod.mk.injEq] at hr
        obtain ⟨e1, e2, e3, e4⟩ := hr
        subst e1; subst e2; subst e3; subst e4
        exact matchBody_bounds rest r1 r2 r3 r4 heq
      next => exact matchBody_map_bounds _ neg h m s ms hma
    · exact matchBody_map_bounds _ neg h m s ms hma
  next => exact matchBody_map_bounds _ neg h m s ms hma

/-- Whatever the leftmost search captures respects the grammar's field
bounds. -/
theorem findMatch_bounds (cs : List Char) (neg : Bool) (h m s ms : Nat)
    (hfm : findMatch cs = some (neg, h, m, s, ms)) :
    h ≤ 23 ∧ m ≤ 59 ∧ s ≤ 59 ∧ ms ≤ 999 := by
  induction cs with
  | nil => exact matchAt_bounds [] neg h m s ms hfm
  | cons c rest ih =>
    unfold findMatch at hfm
    split at hfm
    next r heq =>
      simp only [Option.some.injEq] at hfm
      subst hfm
      exact matchAt_bounds (c :: rest) neg h m s ms heq
    next => exact ih hfm

/-- C3: a Timecode whose hour component is 24 or more (such as hour 100)
can be constructed by `FromParams` and formatted by `FormatDot`, but
parsing its own formatted output never yields the value back, because the
grammar caps the textually-parsed hour field at 23. -/
theorem C3_hour_cap :
    (∀ t : Int, Int64Range t → 24 ≤ (HourMinuteSecondMilli t).1 →
      Parse (FormatDot t) ≠ (t, none)) ∧
    (HourMinuteSecondMilli (FromParams false 100 0 0 0)).1 = 100 ∧
    FormatDot (FromParams false 100 0 0 0) = ("100:00:00.000") := by
  refine ⟨?_, by decide, by decide⟩
  intro t ht hhour hcontra
  cases hfm : findMatch ((FormatDot t).data) with
  | none =>
    simp only [Parse, hfm] at hcontra
    simp at hcontra
  | some r =>
    obtain ⟨neg, h, m, s, ms⟩ := r
    simp only [Parse, hfm] at hcontra
    simp only [Prod.mk.injEq] at hcontra
    obtain ⟨hval, -⟩ := hcontra
    obtain ⟨hbh, hbm, hbs, hbms⟩ := findMatch_bounds _ neg h m s ms hfm
    rw [FromParams_eq neg h m s ms (by omega)] at hval
    rw [hmsm_eq t ht] at hhour
    dsimp only at hhour
    cases neg <;>
      simp only [Bool.false_eq_true, if_false, eq_self_iff_true, if_true] at hval <;> omega

/-- C3 witness: the hour-100 value formatted above is not re-parsed to
itself. -/
theorem C3_hour_cap_witness :
    Parse (FormatDot (FromParams false 100 0 0 0)) ≠ (FromParams false 100 0 0 0, none) :=
  C3_hour_cap.1 (FromParams false 100 0 0 0) (by decide) (by decide)

/-- The leftmost search fails exactly when no suffix position admits a
match. -/
theorem findMatch_none_iff (cs : List Char) :
    findMatch cs = none ↔ ∀ suf : List Char, List.IsSuffix suf cs → matchAt suf = none := by
  induction cs with
  | nil =>
    constructor
    · intro hn suf hsuf
      rw [List.suffix_nil.mp hsuf]
      exact hn
    · intro hall
      exact hall [] (List.suffix_refl [])
  | cons c rest ih =>
    constructor
    · intro hn suf hsuf
      have hsplit : matchAt (c :: rest) = none ∧ findMatch rest = none := by
        unfold findMatch at hn
        cases hma : matchAt (c :: rest) with
        | some r => rw [hma] at hn; exact absurd hn (by simp)
        | none => rw [hma] at hn; exact ⟨rfl, hn⟩
      rcases List.suffix_cons_iff.mp hsuf with rfl | hsuf2
      · exact hsplit.1
      · exact (ih.mp hsplit.2) suf hsuf2
    · intro hall
      unfold findMatch
      have hma : matchAt (c :: rest) = none := hall (c :: rest) (List.suffix_refl _)
      rw [hma]
      exact ih.mpr (fun suf hsuf => hall suf (hsuf.trans (List.suffix_cons c rest)))

/-- C4: Parse returns an error exactly when no position of the input
admits a match of the grammar, and in that case it returns the zero
Timecode alongside the error; the six listed malformed inputs all fail and
report the zero value. -/
theorem C4_parse_error :
    (∀ str : String,
      ((Parse str).2 ≠ none ↔
        ∀ suf : List Char, List.IsSuffix suf str.data → matchAt suf = none) ∧
      ((Parse str).2 ≠ none → (Parse str).1 = Zero)) ∧
    Parse ("not.a.timecode") = (Zero, some ("[not.a.timecode] is not a timecode")) ∧
    Parse ("00:00:0d") = (Zero, some ("[00:00:0d] is not a timecode")) ∧
    Parse ("00:0d:00") = (Zero, some ("[00:0d:00] is not a timecode")) ∧
    Parse ("0d:00:00") = (Zero, some ("[0d:00:00] is not a timecode")) ∧
    Parse ("00:00") = (Zero, some ("[00:00] is not a timecode")) ∧
    Parse ("00:00:-00") = (Zero, some ("[00:00:-00] is not a timecode")) := by
  refine ⟨?_, by decide, by decide, by decide, by decide, by decide, by decide⟩
  intro str
  cases hfm : findMatch str.data with
  | none =>
    have hiff := (findMatch_none_iff str.data).mp hfm
    constructor
    · simp only [Parse, hfm]
      constructor
      · intro _
        exact hiff
      · intro _
        simp
    · intro _
      simp only [Parse, hfm]
  | some r =>
    obtain ⟨neg, h, m, s, ms⟩ := r
    constructor
    · simp only [Parse, hfm]
      constructor
      · intro hcontra
        exact absurd rfl hcontra
      · intro hall
        have hnone := (findMatch_none_iff str.data).mpr hall
        rw [hfm] at hnone
        exact absurd hnone (by simp)
    · intro hcontra
      simp only [Parse, hfm] at hcontra
      exact absurd rfl hcontra

/-- C4 witness: the error-implies-zero-value part of the contract at a
concrete unmatchable input. -/
theorem C4_parse_error_witness :
    (Parse ("no timecode here")).2 ≠ none → (Parse ("no timecode here")).1 = Zero :=
  (C4_parse_error.1 ("no timecode here")).2

/-- C5: milliseconds default to 0 when the separator and digits are
absent, a malformed millisecond suffix falls back to the no-milliseconds
form, and an embedded match ignores surrounding text; each parses to one
second with no error. -/
theorem C5_parse_literal_examples :
    Parse ("00:00:01") = (1000, none) ∧
    Parse ("00:00:01.zzz") = (1000, none) ∧
    Parse ("crouching.tiger.00:00:01.hidden.timecode") = (1000, none) :=
  ⟨by decide, by decide, by decide⟩

/-- The character data of a string built from a character list is that
list. -/
theorem string_mk_data (l : List Char) : (String.mk l).data = l := rfl

/-- C10: when the fractional part of an otherwise valid timecode has more
than three digits, Parse consumes exactly the first three digits (d1 d2 d3
of a fraction d1 d2 d3 d4 ...) as milliseconds and ignores the rest — the
fourth digit and any trailing characters do not change the value — with no
error; in particular the literal example evaluates to 1123 ms. -/
theorem C10_parse_extra_fraction_digits :
    (∀ h m s d1 d2 d3 d4 : Nat, ∀ rest : List Char,
      h ≤ 23 → m ≤ 59 → s ≤ 59 → d1 ≤ 9 → d2 ≤ 9 → d3 ≤ 9 → d4 ≤ 9 →
      Parse (String.mk (Nat.digitChar (h / 10) :: Nat.digitChar (h % 10) :: ':' ::
          Nat.digitChar (m / 10) :: Nat.digitChar (m % 10) :: ':' ::
          Nat.digitChar (s / 10) :: Nat.digitChar (s % 10) :: '.' ::
          Nat.digitChar d1 :: Nat.digitChar d2 :: Nat.digitChar d3 ::
          Nat.digitChar d4 :: rest)) =
        (3600000 * (h : Int) + 60000 * (m : Int) + 1000 * (s : Int) +
          (100 * (d1 : Int) + 10 * (d2 : Int) + (d3 : Int)), none)) ∧
    Parse ("00:00:01.1234") = (1123, none) := by
  refine ⟨?_, by decide⟩
  intro h m s d1 d2 d3 d4 rest hh hm hs hd1 hd2 hd3 hd4
  have e1 : (100 * d1 + 10 * d2 + d3) / 100 = d1 := by omega
  have e2 : (100 * d1 + 10 * d2 + d3) / 10 % 10 = d2 := by omega
  have e3 : (100 * d1 + 10 * d2 + d3) % 10 = d3 := by omega
  have hma := matchAt_digits_pos h m s (100 * d1 + 10 * d2 + d3) hh hm hs (by omega)
    (Nat.digitChar d4 :: rest)
  rw [e1, e2, e3] at hma
  have hfm := findMatch_cons_some _ _ _ hma
  simp only [Parse, string_mk_data, hfm]
  simp only [Prod.mk.injEq]
  refine ⟨?_, trivial⟩
  rw [FromParams_eq false _ _ _ _ (by omega)]
  simp only [Bool.false_eq_true, if_false]
  omega

/-- C10 witness: the general statement applied at the components of the
literal example 00:00:01.1234 with an empty remainder. -/
theorem C10_parse_extra_fraction_digits_witness :
    Parse (String.mk (Nat.digitChar (0 / 10) :: Nat.digitChar (0 % 10) :: ':' ::
        Nat.digitChar (0 / 10) :: Nat.digitChar (0 % 10) :: ':' ::
        Nat.digitChar (1 / 10) :: Nat.digitChar (1 % 10) :: '.' ::
        Nat.digitChar 1 :: Nat.digitChar 2 :: Nat.digitChar 3 ::
        Nat.digitChar 4 :: [])) =
      (3600000 * ((0 : Nat) : Int) + 60000 * ((0 : Nat) : Int) + 1000 * ((1 : Nat) : Int) +
        (100 * ((1 : Nat) : Int) + 10 * ((2 : Nat) : Int) + ((3 : Nat) : Int)), none) :=
  C10_parse_extra_fraction_digits.1 0 0 1 1 2 3 4 [] (by decide) (by decide) (by decide)
    (by decide) (by decide) (by decide) (by decide)

/-- C8: with milliseconds, `Format` renders the zero-padded (2,2,2,3
digits, hours widening as needed) decomposition of the magnitude joined as
HH:MM:SS, the separator and mmm; without milliseconds only HH:MM:SS with
the separator unused; a leading minus appears exactly when the input is
negative; and the spec's three literal scenarios hold. -/
theorem C8_format_rendering :
    (∀ t : Int, ∀ sep : String, Int64Range t →
      Format t true sep =
        (if IsNegative t then
          ("-") ++ (fmtNum 2 (t.natAbs / 3600000) ++ (":") ++ fmtNum 2 (t.natAbs / 60000 % 60) ++
            (":") ++ fmtNum 2 (t.natAbs / 1000 % 60) ++ sep ++ fmtNum 3 (t.natAbs % 1000))
        else
          fmtNum 2 (t.natAbs / 3600000) ++ (":") ++ fmtNum 2 (t.natAbs / 60000 % 60) ++
            (":") ++ fmtNum 2 (t.natAbs / 1000 % 60) ++ sep ++ fmtNum 3 (t.natAbs % 1000)) ∧
      Format t false sep =
        (if IsNegative t then
          ("-") ++ (fmtNum 2 (t.natAbs / 3600000) ++ (":") ++ fmtNum 2 (t.natAbs / 60000 % 60) ++
            (":") ++ fmtNum 2 (t.natAbs / 1000 % 60))
        else
          fmtNum 2 (t.natAbs / 3600000) ++ (":") ++ fmtNum 2 (t.natAbs / 60000 % 60) ++
            (":") ++ fmtNum 2 (t.natAbs / 1000 % 60))) ∧
    FormatDot (FromParams false 1 2 3 4) = ("01:02:03.004") ∧
    FormatDot (FromParams true 1 2 3 4) = ("-01:02:03.004") ∧
    (∀ sep : String, Format (FromParams false 1 2 3 4) false sep = ("01:02:03")) ∧
    FormatDot (FromParams false 123 45 6 789) = ("123:45:06.789") := by
  refine ⟨?_, by decide, by decide, fun sep => rfl, by decide⟩
  intro t sep ht
  constructor
  · simp only [Format, eq_self_iff_true, if_true]
    rw [hmsm_eq t ht]
  · simp only [Format, Bool.false_eq_true, if_false]
    rw [hmsm_eq t ht]

/-- C8 witness: the with- and without-milliseconds renderings at a
concrete negative value and a nonstandard separator. -/
theorem C8_format_rendering_witness :
    Format (-3723456) true (";") =
      (if IsNegative (-3723456) then
        ("-") ++ (fmtNum 2 ((-3723456 : Int).natAbs / 3600000) ++ (":") ++
          fmtNum 2 ((-3723456 : Int).natAbs / 60000 % 60) ++ (":") ++
          fmtNum 2 ((-3723456 : Int).natAbs / 1000 % 60) ++ (";") ++
          fmtNum 3 ((-3723456 : Int).natAbs % 1000))
      else
        fmtNum 2 ((-3723456 : Int).natAbs / 3600000) ++ (":") ++
          fmtNum 2 ((-3723456 : Int).natAbs / 60000 % 60) ++ (":") ++
          fmtNum 2 ((-3723456 : Int).natAbs / 1000 % 60) ++ (";") ++
          fmtNum 3 ((-3723456 : Int).natAbs % 1000)) ∧
    Format (-3723456) false (";") =
      (if IsNegative (-3723456) then
        ("-") ++ (fmtNum 2 ((-3723456 : Int).natAbs / 3600000) ++ (":") ++
          fmtNum 2 ((-3723456 : Int).natAbs / 60000 % 60) ++ (":") ++
          fmtNum 2 ((-3723456 : Int).natAbs / 1000 % 60))
      else
        fmtNum 2 ((-3723456 : Int).natAbs / 3600000) ++ (":") ++
          fmtNum 2 ((-3723456 : Int).natAbs / 60000 % 60) ++ (":") ++
          fmtNum 2 ((-3723456 : Int).natAbs / 1000 % 60)) :=
  C8_format_rendering.1 (-3723456) (";") (by decide)

/-- C9: the comma and dot formats differ only in the millisecond separator
character, never in digit content, and the default string conversion
equals the dot form. -/
theorem C9_comma_dot (t : Int) :
    (∃ a b : String, FormatDot t = a ++ (".") ++ b ∧ FormatComma t = a ++ (",") ++ b) ∧
    TimecodeString t = FormatDot t := by
  refine ⟨⟨(if IsNegative t then ("-") else ("")) ++
      (fmtNum 2 (HourMinuteSecondMilli t).1 ++ (":") ++ fmtNum 2 (HourMinuteSecondMilli t).2.1 ++
        (":") ++ fmtNum 2 (HourMinuteSecondMilli t).2.2.1),
    fmtNum 3 (HourMinuteSecondMilli t).2.2.2, ?_, ?_⟩, rfl⟩
  · simp only [FormatDot, Format, eq_self_iff_true, if_true]
    cases hneg : IsNegative t
    · simp only [Bool.false_eq_true, if_false]
      simp only [String.append_assoc]
      rfl
    · simp only [eq_self_iff_true, if_true]
      simp only [String.append_assoc]
  · simp only [FormatComma, Format, eq_self_iff_true, if_true]
    cases hneg : IsNegative t
    · simp only [Bool.false_eq_true, if_false]
      simp only [String.append_assoc]
      rfl
    · simp only [eq_self_iff_true, if_true]
      simp only [String.append_assoc]

/-- C9 witness: the separator-only difference at a concrete negative
value. -/
theorem C9_comma_dot_witness :
    (∃ a b : String,
      FormatDot (-3723456) = a ++ (".") ++ b ∧ FormatComma (-3723456) = a ++ (",") ++ b) ∧
    TimecodeString (-3723456) = FormatDot (-3723456) :=
  C9_comma_dot (-3723456)

end timecode
